import Mathlib

/-!
Verification of the line-level diff/review engine and the concurrent
request scheduler of the misra-fix-buddy repository.

The review side (change classification, review transitions, bulk
accept/reject, grouping, cursor navigation) is embedded from
src/components/FixReviewModal.tsx; the scheduler side is embedded from
the ConcurrentApiClient class in src/lib/auth-utils.ts.

JavaScript strings are modelled as Lean String, JS numbers used as
counters as Int (they can go negative), absent/null snippet values as
Option String, and the single-threaded async event loop of the
scheduler as an explicit step function over traces of events.
-/

namespace MisraFix

/-- JS \s character class restricted to the ASCII whitespace the data
actually contains. -/
def isJsSpace (c : Char) : Bool :=
  c = ' ' || c = '\t' || c = '\n' || c = '\r' || c = '\x0b' || c = '\x0c'

/-- JS String.trim: drop whitespace on both ends. -/
def jsTrim (s : String) : String :=
  String.mk (((s.data.dropWhile isJsSpace).reverse.dropWhile isJsSpace).reverse)

/-- Splitting a character list at newline characters (the JS
split with a one-character separator). -/
def splitNewlinesAux : List Char → List Char → List String
  | [], acc => [String.mk acc.reverse]
  | c :: cs, acc =>
    if c = '\n' then String.mk acc.reverse :: splitNewlinesAux cs []
    else splitNewlinesAux cs (c :: acc)

/-- originalCode.split of a newline: the empty string splits to a
single empty line, a trailing newline yields a trailing empty line. -/
def splitNewlines (s : String) : List String :=
  splitNewlinesAux s.data []

/-- The digits matched by the regex ^(\d+) at the front of a string
(empty if the string does not start with a digit). -/
def leadingDigits (s : String) : String :=
  String.mk (s.data.takeWhile Char.isDigit)

/-- Value of parseInt(key.match(regex)?.[1] or zero): the numeric value
of the leading digit run, 0 when there is none. -/
def parseLeadingNat (s : String) : Nat :=
  (s.data.takeWhile Char.isDigit).foldl (fun n c => 10 * n + (c.toNat - 48)) 0

/-- The regex test /[a-z]$/ : the last character is a lowercase letter. -/
def endsWithLowerAlpha (s : String) : Bool :=
  match s.data.reverse with
  | [] => false
  | c :: _ => ('a' ≤ c && c ≤ 'z')

/-- replace(leading digits plus whitespace, empty): if the string starts
with a digit, drop the leading digit run and the whitespace after it;
otherwise the string is unchanged. -/
def stripLineNum (s : String) : String :=
  match s.data with
  | [] => s
  | c :: _ =>
    if c.isDigit then String.mk ((s.data.dropWhile Char.isDigit).dropWhile isJsSpace)
    else s

/-- A line key matching the shape digits followed by an optional
lowercase letter. -/
def validLineKey (s : String) : Bool :=
  match s.data with
  | [] => false
  | c :: _ =>
    c.isDigit &&
      (let rest := s.data.dropWhile Char.isDigit
       rest = [] || (match rest with
                     | [d] => 'a' ≤ d && d ≤ 'z'
                     | _ => false))

/-- The normalization named by the spec: strip a leading numeric
line-number token, then trim. -/
def normalizeContent (s : String) : String :=
  jsTrim (stripLineNum s)

/-- A snippet value is treated as empty when it is null, undefined or
the empty string. -/
def emptyish (o : Option String) : Bool :=
  match o with
  | none => true
  | some s => s = ""

inductive ChangeKind
  | added
  | deleted
  | modified
  | unchanged
deriving DecidableEq, Repr

structure ChangeInfo where
  kind : ChangeKind
  originalContent : String
  fixedContent : String
deriving DecidableEq, Repr

/-- The expression originalLines[lineNumber - 1] or empty, with the JS
out-of-range index -1 (a zero base) also giving the empty string. -/
def originalContentAt (originalLines : List String) (lineKey : String) : String :=
  let lineNumber := parseLeadingNat lineKey
  if lineNumber = 0 then "" else originalLines.getD (lineNumber - 1) ""

/-- Core of getLineChangeType from FixReviewModal.tsx, with the snippet
value for the key passed explicitly (none models both null and
undefined). -/
def classifyLine (originalLines : List String) (lineKey : String)
    (snippetContent : Option String) : ChangeInfo :=
  let isNewLine := endsWithLowerAlpha lineKey
  if isNewLine then
    { kind := .added, originalContent := "", fixedContent := snippetContent.getD "" }
  else
    let originalContent := originalContentAt originalLines lineKey
    if emptyish snippetContent then
      if jsTrim originalContent ≠ "" then
        { kind := .deleted, originalContent := originalContent, fixedContent := "" }
      else
        { kind := .unchanged, originalContent := originalContent,
          fixedContent := snippetContent.getD "" }
    else
      let cleanOriginal := jsTrim (stripLineNum originalContent)
      let cleanFixed := jsTrim (stripLineNum (snippetContent.getD ""))
      if cleanOriginal ≠ cleanFixed then
        { kind := .modified, originalContent := originalContent,
          fixedContent := snippetContent.getD "" }
      else
        { kind := .unchanged, originalContent := originalContent,
          fixedContent := snippetContent.getD "" }

/-- The snippet map of the component, in object-iteration order. A pair
with value none models an explicit null entry; an absent key models
undefined. -/
abbrev SnippetMap := List (String × Option String)

/-- Reading codeSnippets at a key. -/
def lookupSnippet (snippets : SnippetMap) (k : String) : Option String :=
  match snippets.find? (fun p => p.1 = k) with
  | none => none
  | some p => p.2

/-- getLineChangeType(lineKey, originalLines) with the captured
codeSnippets state passed explicitly. -/
def getLineChangeType (snippets : SnippetMap) (lineKey : String)
    (originalLines : List String) : ChangeInfo :=
  classifyLine originalLines lineKey (lookupSnippet snippets lineKey)

example : (classifyLine ["int x;", "int y;"] "1" (some "int x = 0;")).kind = .modified := by decide
example : (classifyLine ["int x;", "int y;"] "2" none).kind = .deleted := by decide
example : (classifyLine ["1 int x;"] "1" (some "1 int x;")).kind = .unchanged := by decide
example : (classifyLine ["1"] "1" none).kind = .deleted := by decide
example : (classifyLine [] "1a" none).kind = .added := by decide

/-! ## Review state machine (FixReviewModal.tsx handlers) -/

inductive ReviewStatus
  | pending
  | accepted
  | rejected
deriving DecidableEq, Repr

/-- The Fix records held in the fixes state of the modal. The index
field of the source record plays no role in the reviewed logic and is
omitted. -/
structure Fix where
  line_key : String
  content : String
  status : ReviewStatus
deriving DecidableEq, Repr

/-- The summary state of the modal. Counts are Int: the JS arithmetic
can drive them negative. -/
structure ReviewSummary where
  total_fixes : Int
  accepted_count : Int
  rejected_count : Int
  pending_count : Int
  current_review_index : Int
deriving DecidableEq, Repr

/-- The two actions handleReviewAction accepts. -/
inductive ReviewAction
  | accept
  | reject
deriving DecidableEq, Repr

def statusAfter : ReviewAction → ReviewStatus
  | .accept => .accepted
  | .reject => .rejected

/-- Outcome of a backend call as seen by a handler: ok b is a response
with success flag b, error is a thrown exception (caught by the
handler, which then changes nothing). -/
abbrev BackendResp := Except Unit Bool

/-- State mutation performed by handleReviewAction for a given backend
response: on success the targeted fix moves to the action status and
the summary buckets are adjusted incrementally (decrement the bucket of
the previous status, falling back to pending when the key has no fix,
then increment the target bucket). -/
def handleReviewAction (fixes : List Fix) (summary : Option ReviewSummary)
    (lineKey : String) (action : ReviewAction) (resp : BackendResp) :
    List Fix × Option ReviewSummary :=
  match resp with
  | .error _ => (fixes, summary)
  | .ok false => (fixes, summary)
  | .ok true =>
    let updatedFixes := fixes.map fun f =>
      if f.line_key = lineKey then { f with status := statusAfter action } else f
    let newSummary := summary.map fun s =>
      let currentFix := fixes.find? fun f => f.line_key = lineKey
      let s1 :=
        match currentFix with
        | some f =>
          match f.status with
          | .accepted => { s with accepted_count := s.accepted_count - 1 }
          | .rejected => { s with rejected_count := s.rejected_count - 1 }
          | .pending => { s with pending_count := s.pending_count - 1 }
        | none => { s with pending_count := s.pending_count - 1 }
      match action with
      | .accept => { s1 with accepted_count := s1.accepted_count + 1 }
      | .reject => { s1 with rejected_count := s1.rejected_count + 1 }
    (updatedFixes, newSummary)

/-- State mutation performed by handleSingleLineReset: on success the
targeted fix moves to pending; the summary, when present and when the
key has a fix, decrements the accepted or rejected bucket of the old
status (nothing is decremented when the old status is pending) and
always increments pending_count. -/
def handleSingleLineReset (fixes : List Fix) (summary : Option ReviewSummary)
    (lineKey : String) (resp : BackendResp) :
    List Fix × Option ReviewSummary :=
  match resp with
  | .error _ => (fixes, summary)
  | .ok false => (fixes, summary)
  | .ok true =>
    let updatedFixes := fixes.map fun f =>
      if f.line_key = lineKey then { f with status := .pending } else f
    let currentFix := fixes.find? fun f => f.line_key = lineKey
    let newSummary :=
      match summary, currentFix with
      | some s, some f =>
        let s1 :=
          match f.status with
          | .accepted => { s with accepted_count := s.accepted_count - 1 }
          | .rejected => { s with rejected_count := s.rejected_count - 1 }
          | .pending => s
        some { s1 with pending_count := s1.pending_count + 1 }
      | s?, _ => s?
    (updatedFixes, newSummary)

/-- getActualChangedFixes: the actionable subset, the fixes whose
change classification is not unchanged. An empty original buffer is
falsy in JS, so it short-circuits to the empty list. -/
def getActualChangedFixes (fixes : List Fix) (snippets : SnippetMap)
    (originalCode : String) : List Fix :=
  if originalCode = "" then []
  else
    let originalLines := splitNewlines originalCode
    fixes.filter fun f =>
      (getLineChangeType snippets f.line_key originalLines).kind ≠ .unchanged

/-- handleAcceptAll: collect the actionable line keys; when there are
none, return immediately; otherwise, when every backend action
succeeded, mark every actionable fix accepted and rewrite the summary
counts from scratch. -/
def handleAcceptAll (fixes : List Fix) (summary : Option ReviewSummary)
    (snippets : SnippetMap) (originalCode : String) (resp : BackendResp) :
    List Fix × Option ReviewSummary :=
  let changedFixes := getActualChangedFixes fixes snippets originalCode
  let allLineKeys := changedFixes.map (·.line_key)
  if allLineKeys.length = 0 then (fixes, summary)
  else
    match resp with
    | .error _ => (fixes, summary)
    | .ok false => (fixes, summary)
    | .ok true =>
      let updatedFixes := fixes.map fun f =>
        if allLineKeys.contains f.line_key then { f with status := .accepted } else f
      let newSummary := summary.map fun s =>
        { s with accepted_count := (allLineKeys.length : Int),
                 rejected_count := 0, pending_count := 0 }
      (updatedFixes, newSummary)

/-- handleRejectAll, the mirror of handleAcceptAll. -/
def handleRejectAll (fixes : List Fix) (summary : Option ReviewSummary)
    (snippets : SnippetMap) (originalCode : String) (resp : BackendResp) :
    List Fix × Option ReviewSummary :=
  let changedFixes := getActualChangedFixes fixes snippets originalCode
  let allLineKeys := changedFixes.map (·.line_key)
  if allLineKeys.length = 0 then (fixes, summary)
  else
    match resp with
    | .error _ => (fixes, summary)
    | .ok false => (fixes, summary)
    | .ok true =>
      let updatedFixes := fixes.map fun f =>
        if allLineKeys.contains f.line_key then { f with status := .rejected } else f
      let newSummary := summary.map fun s =>
        { s with accepted_count := 0,
                 rejected_count := (allLineKeys.length : Int), pending_count := 0 }
      (updatedFixes, newSummary)

/-- The count invariant of the spec. -/
def sumInv (s : ReviewSummary) : Prop :=
  s.accepted_count + s.rejected_count + s.pending_count = s.total_fixes

instance (s : ReviewSummary) : Decidable (sumInv s) := by
  unfold sumInv; infer_instance

/-! ## Grouping (getLineGroups) -/

/-- groups[baseLine].push(lineKey), creating the bucket on first use.
Buckets keep their first-creation order; members keep push order. -/
def addToGroup (groups : List (String × List String)) (base k : String) :
    List (String × List String) :=
  match groups with
  | [] => [(base, [k])]
  | (b, ks) :: rest =>
    if b = base then (b, ks ++ [k]) :: rest
    else (b, ks) :: addToGroup rest base k

/-- getLineGroups: walk the snippet keys; each key with a leading digit
run is pushed into the bucket of its base line; keys with no leading
digit are dropped. -/
def getLineGroups (snippets : SnippetMap) : List (String × List String) :=
  snippets.foldl
    (fun groups p =>
      if leadingDigits p.1 = "" then groups
      else addToGroup groups (leadingDigits p.1) p.1)
    []

/-- All members of all groups, concatenated. -/
def groupMembers (groups : List (String × List String)) : List String :=
  (groups.map Prod.snd).flatten

/-! ## Cursor navigation -/

/-- How many leading entries of the actionable list lie at or before
the current fix: position of the current key plus one, 0 when the
current fix is absent or not actionable (the slice from -1 + 1). -/
def afterCurrentDrop (actionable : List Fix) (currentKey : Option String) : Nat :=
  match currentKey with
  | some ck =>
    match actionable.findIdx? (fun f => f.line_key = ck) with
    | some i => i + 1
    | none => 0
  | none => 0

/-- The auto-advance step scheduled by handleReviewAction after a
successful accept or reject. Everything it reads through its closure
(fixes, currentFixIndex, originalCode, codeSnippets) is the state from
before the action; only updatedFixes reflects the new status. Returns
the index the cursor is moved to, or none when it stays. -/
def autoAdvanceIndex (fixes : List Fix) (snippets : SnippetMap)
    (originalCode : String) (currentFixIndex : Nat) (lineKey : String)
    (action : ReviewAction) : Option Nat :=
  let updatedFixes := fixes.map fun f =>
    if f.line_key = lineKey then { f with status := statusAfter action } else f
  let changedFixes := getActualChangedFixes fixes snippets originalCode
  let currentKey := (fixes.get? currentFixIndex).map (·.line_key)
  let dropCount := afterCurrentDrop changedFixes currentKey
  match (changedFixes.drop dropCount).find? (fun f => f.status = .pending) with
  | none => none
  | some nf =>
    match updatedFixes.findIdx? (fun f => f.line_key = nf.line_key) with
    | none => none
    | some nextIndex =>
      if nextIndex ≠ currentFixIndex then some nextIndex else none

/-- navigateToNextChange: move to the actionable entry after the
current one, unless the current fix already is the last actionable
entry (position arithmetic is JS style, with -1 for a current fix that
is not actionable). navigateToFix further requires the target index to
be in bounds. -/
def nextChangeIndex (fixes : List Fix) (snippets : SnippetMap)
    (originalCode : String) (currentFixIndex : Nat) : Option Nat :=
  let changedFixes := getActualChangedFixes fixes snippets originalCode
  let currentKey := (fixes.get? currentFixIndex).map (·.line_key)
  let cIdx : Int :=
    match currentKey with
    | some ck =>
      match changedFixes.findIdx? (fun f => f.line_key = ck) with
      | some i => (i : Int)
      | none => -1
    | none => -1
  if cIdx < (changedFixes.length : Int) - 1 then
    match changedFixes.get? (cIdx + 1).toNat with
    | none => none
    | some nextFix =>
      match fixes.findIdx? (fun f => f.line_key = nextFix.line_key) with
      | none => none
      | some nextIndex =>
        if nextIndex < fixes.length then some nextIndex else none
  else none

/-- navigateToPreviousChange: move to the actionable entry before the
current one, unless the current position is 0 or the current fix is not
actionable. -/
def prevChangeIndex (fixes : List Fix) (snippets : SnippetMap)
    (originalCode : String) (currentFixIndex : Nat) : Option Nat :=
  let changedFixes := getActualChangedFixes fixes snippets originalCode
  let currentKey := (fixes.get? currentFixIndex).map (·.line_key)
  let cIdx : Int :=
    match currentKey with
    | some ck =>
      match changedFixes.findIdx? (fun f => f.line_key = ck) with
      | some i => (i : Int)
      | none => -1
    | none => -1
  if 0 < cIdx then
    match changedFixes.get? (cIdx - 1).toNat with
    | none => none
    | some prevFix =>
      match fixes.findIdx? (fun f => f.line_key = prevFix.line_key) with
      | none => none
      | some prevIndex =>
        if prevIndex < fixes.length then some prevIndex else none
  else none

/-- Written from the claim text of the auto-advance property: the first
actionable fix with status pending occurring strictly after the current
fix in the actionable ordering, where status is read from the state the
claim quantifies over. Returns the line key of that fix. -/
def claimNextPendingKey (fixesForStatus : List Fix) (actionable : List Fix)
    (currentKey : Option String) : Option String :=
  let dropCount := afterCurrentDrop actionable currentKey
  ((actionable.drop dropCount).find? (fun f =>
    match fixesForStatus.find? (fun g => g.line_key = f.line_key) with
    | some g => g.status = .pending
    | none => false)).map (·.line_key)

/-! ## Request scheduler (ConcurrentApiClient, auth-utils.ts)

The client runs on a single-threaded event loop; its behaviour is a
deterministic function of the interleaving of enqueue calls,
settlements of in-flight fetches, and cancellations. We embed it as a
step function over such event traces. State fields mirror the class
fields: queue is requestQueue, activeMap the key set of activeRequests,
current is currentRequests (an Int: the decrements can drive the JS
number below zero). aborted holds requests whose controller was
aborted but whose AbortError has not been delivered yet (cancel
deletes them from activeRequests at once; the fetch rejection arrives
later; a request can only be aborted while its fetch is pending,
because executeRequest deletes the id from activeRequests as soon as
the response arrives). outcomes records promise settlements of
queueRequest promises; dispatched logs the order in which
executeRequest is started. -/

structure QReq where
  id : Nat
  priority : Int
deriving DecidableEq, Repr

inductive Outcome
  | success
  | failure
deriving DecidableEq, Repr

structure SchedState where
  queue : List QReq
  activeMap : List Nat
  aborted : List Nat
  current : Int
  outcomes : List (Nat × Outcome)
  dispatched : List Nat
deriving DecidableEq, Repr

def SchedState.init : SchedState :=
  { queue := [], activeMap := [], aborted := [], current := 0,
    outcomes := [], dispatched := [] }

/-- The insertion loop of queueRequest: scan from the front and splice
in before the first entry of strictly lower priority, else push at the
end. -/
def insertByPriority (q : List QReq) (r : QReq) : List QReq :=
  match q with
  | [] => [r]
  | x :: xs => if x.priority < r.priority then r :: x :: xs else x :: insertByPriority xs r

/-- The processQueue while loop, structurally bounded by fuel: while
the queue is non-empty and currentRequests < maxConcurrentRequests,
shift the head, bump the counter and start executing it (which
registers its AbortController). -/
def processQueueFuel (max : Nat) : Nat → SchedState → SchedState
  | 0, s => s
  | fuel + 1, s =>
    match s.queue with
    | [] => s
    | r :: rest =>
      if s.current < (max : Int) then
        processQueueFuel max fuel
          { s with queue := rest, current := s.current + 1,
                   activeMap := s.activeMap ++ [r.id],
                   dispatched := s.dispatched ++ [r.id] }
      else s

/-- processQueue: one loop iteration consumes one queue entry, so the
queue length bounds the loop. -/
def processQueue (max : Nat) (s : SchedState) : SchedState :=
  processQueueFuel max s.queue.length s

/-- The events the event loop can deliver to the client, one per
settlement path of executeRequest. complete: the fetch resolved with an
ok status and the body parsed (delete, one decrement, resolve).
failHttp: the fetch resolved but the status was non-ok or the body
parse threw; executeRequest has already deleted the id and decremented
once when the throw lands in the catch block, which decrements a second
time and rejects. failFetch: the fetch itself rejected with a non-abort
error, so only the catch block runs (one decrement, reject). cancel is
cancelRequest(id); abortFired is the AbortError rejection of a fetch
cancelled mid-flight reaching the catch block (one decrement, no
settlement). -/
inductive SchedEvent
  | enqueue (id : Nat) (priority : Int)
  | complete (id : Nat)
  | failHttp (id : Nat)
  | failFetch (id : Nat)
  | cancel (id : Nat)
  | abortFired (id : Nat)
deriving DecidableEq, Repr

/-- One step of the client. enqueue inserts by priority and immediately
runs processQueue. complete and failFetch drop the request from
activeRequests, decrement currentRequests once, settle the promise and
run processQueue again; failHttp decrements twice (line 68 and the
catch block of executeRequest both run) before rejecting and running
processQueue. cancel aborts and removes an active request but touches
neither the queue nor the counter and settles nothing. abortFired
decrements the counter once, settles nothing (the AbortError is
swallowed) and runs processQueue. -/
def schedStep (max : Nat) (s : SchedState) : SchedEvent → SchedState
  | .enqueue id priority =>
    processQueue max { s with queue := insertByPriority s.queue ⟨id, priority⟩ }
  | .complete id =>
    if s.activeMap.contains id then
      processQueue max
        { s with activeMap := s.activeMap.erase id, current := s.current - 1,
                 outcomes := (id, .success) :: s.outcomes }
    else s
  | .failHttp id =>
    if s.activeMap.contains id then
      processQueue max
        { s with activeMap := s.activeMap.erase id, current := s.current - 1 - 1,
                 outcomes := (id, .failure) :: s.outcomes }
    else s
  | .failFetch id =>
    if s.activeMap.contains id then
      processQueue max
        { s with activeMap := s.activeMap.erase id, current := s.current - 1,
                 outcomes := (id, .failure) :: s.outcomes }
    else s
  | .cancel id =>
    if s.activeMap.contains id then
      { s with activeMap := s.activeMap.erase id, aborted := s.aborted ++ [id] }
    else s
  | .abortFired id =>
    if s.aborted.contains id then
      processQueue max
        { s with aborted := s.aborted.erase id, current := s.current - 1 }
    else s

/-- Whether an event is a double-decrement settlement (the HTTP-error
path of executeRequest). -/
def isFailHttp : SchedEvent → Bool
  | .failHttp _ => true
  | _ => false

/-- The number of requests actually executing: ids with a pending
fetch plus ids whose abort is still being delivered. -/
def inFlight (s : SchedState) : Int :=
  (s.activeMap.length : Int) + (s.aborted.length : Int)

/-- The result of cancelRequest(id): true when there was an active
controller to abort. -/
def cancelResult (s : SchedState) (id : Nat) : Bool :=
  s.activeMap.contains id

/-- Run a trace of events from a state. -/
def schedRunFrom (max : Nat) (s : SchedState) (evs : List SchedEvent) : SchedState :=
  evs.foldl (schedStep max) s

/-- Run a trace of events from the initial state. -/
def schedRun (max : Nat) (evs : List SchedEvent) : SchedState :=
  schedRunFrom max SchedState.init evs

example :
    (schedRun 1 [.enqueue 1 1, .enqueue 2 3, .enqueue 3 2,
                 .complete 1, .complete 2, .complete 3]).dispatched = [1, 2, 3] := by
  decide

example :
    (schedRun 2 [.enqueue 1 1, .cancel 1, .abortFired 1]).outcomes = [] := by
  decide

/-! ## Helper lemmas -/

theorem find?_key_map (g : Fix → Fix) (hg : ∀ f, (g f).line_key = f.line_key)
    (l : List Fix) (k : String) :
    (l.map g).find? (fun f => f.line_key = k) =
      (l.find? (fun f => f.line_key = k)).map g := by
  induction l with
  | nil => rfl
  | cons a l ih =>
    by_cases h : a.line_key = k
    · simp [List.find?_cons, hg, h]
    · simp [List.find?_cons, hg, h, ih]

theorem findIdx?_key_map (g : Fix → Fix) (hg : ∀ f, (g f).line_key = f.line_key)
    (l : List Fix) (k : String) :
    (l.map g).findIdx? (fun f => f.line_key = k) =
      l.findIdx? (fun f => f.line_key = k) := by
  induction l with
  | nil => rfl
  | cons a l ih =>
    by_cases h : a.line_key = k
    · simp [List.findIdx?_cons, hg, h]
    · simp [List.findIdx?_cons, hg, h, ih]

theorem map_key_idem (g : Fix → Fix) (hgg : ∀ f, g (g f) = g f) (l : List Fix) :
    (l.map g).map g = l.map g := by
  induction l with
  | nil => rfl
  | cons a l ih => simp [hgg, ih]

/-! ## C6: change classifier unchanged-characterization -/

/-- C6: the claim states that the classifier returns Unchanged exactly
when the prefix-stripped-and-trimmed original content equals the
equally normalized proposed content. False: with original line "1" and
an absent snippet, both sides normalize to the empty string, yet the
classifier reports Deleted (that branch trims without stripping the
numeric token). -/
theorem c6_counterexample :
    ¬ (((classifyLine ["1"] "1" none).kind = ChangeKind.unchanged) ↔
        (normalizeContent (originalContentAt ["1"] "1") = normalizeContent "")) := by
  decide

/-- C6 amended: the classifier returns Unchanged iff the key has no
insertion letter and, for an empty/null/undefined proposed content, the
original content is whitespace-only (trim only, no numeric token
stripping), while for non-empty proposed content the two normalized
(token-stripped, trimmed) contents are equal; keys with an insertion
letter always classify Added. -/
theorem c6_unchanged_characterization (originalLines : List String)
    (lineKey : String) (proposed : Option String) :
    (classifyLine originalLines lineKey proposed).kind = ChangeKind.unchanged ↔
      (endsWithLowerAlpha lineKey = false ∧
        (if emptyish proposed then
          jsTrim (originalContentAt originalLines lineKey) = ""
        else
          normalizeContent (originalContentAt originalLines lineKey) =
            normalizeContent (proposed.getD ""))) := by
  unfold classifyLine normalizeContent
  cases h1 : endsWithLowerAlpha lineKey
  · cases h2 : emptyish proposed
    · by_cases h3 : jsTrim (stripLineNum (originalContentAt originalLines lineKey)) =
        jsTrim (stripLineNum (proposed.getD ""))
      · simp [h1, h2, h3]
      · simp [h1, h2, h3]
    · by_cases h3 : jsTrim (originalContentAt originalLines lineKey) = ""
      · simp [h1, h2, h3]
      · simp [h1, h2, h3]
  · simp [h1]

/-! ## C5: idempotence of Reset -/

/-- C5: the claim states that applying Reset twice to the same LineKey
yields the same Fix statuses and the same ReviewSummary counts as
applying it once. False: starting from an accepted fix with consistent
counts, the second Reset inflates pending_count again (the handler
never decrements the pending bucket). -/
theorem c5_counterexample :
    (let once := handleSingleLineReset [⟨"1", "int x;", .accepted⟩]
        (some ⟨1, 1, 0, 0, 0⟩) "1" (.ok true)
     let twice := handleSingleLineReset once.1 once.2 "1" (.ok true)
     once.2 = some ⟨1, 0, 0, 1, 0⟩ ∧ twice.2 = some ⟨1, 0, 0, 2, 0⟩ ∧ twice ≠ once) := by
  decide

/-- One successful Reset of a line key. -/
def resetOnce (fixes : List Fix) (summary : Option ReviewSummary)
    (lineKey : String) : List Fix × Option ReviewSummary :=
  handleSingleLineReset fixes summary lineKey (.ok true)

/-- Two successful Resets of the same line key in a row. -/
def resetTwice (fixes : List Fix) (summary : Option ReviewSummary)
    (lineKey : String) : List Fix × Option ReviewSummary :=
  resetOnce (resetOnce fixes summary lineKey).1 (resetOnce fixes summary lineKey).2 lineKey

/-- C5 amended: a second Reset of the same LineKey leaves the Fix
statuses exactly as after the first Reset, but it is not idempotent on
the summary: when the key has a Fix, the second Reset adds 1 to
pending_count on top of the first result (when the key has no Fix the
summary is untouched both times). -/
theorem c5_reset_idempotence (fixes : List Fix) (summary : ReviewSummary)
    (lineKey : String) :
    (resetTwice fixes (some summary) lineKey).1 = (resetOnce fixes (some summary) lineKey).1 ∧
    ((fixes.find? (fun f => f.line_key = lineKey)).isSome →
       ∀ s1, (resetOnce fixes (some summary) lineKey).2 = some s1 →
         (resetTwice fixes (some summary) lineKey).2 =
           some { s1 with pending_count := s1.pending_count + 1 }) ∧
    ((fixes.find? (fun f => f.line_key = lineKey)) = none →
       (resetTwice fixes (some summary) lineKey).2 =
         (resetOnce fixes (some summary) lineKey).2) := by
  have hg : ∀ f : Fix,
      ((fun f : Fix => if f.line_key = lineKey then { f with status := .pending } else f)
        ((fun f : Fix => if f.line_key = lineKey then { f with status := .pending } else f) f)) =
      (fun f : Fix => if f.line_key = lineKey then { f with status := .pending } else f) f := by
    intro f
    by_cases h : f.line_key = lineKey <;> simp [h]
  have hk : ∀ f : Fix,
      ((fun f : Fix => if f.line_key = lineKey then { f with status := .pending } else f) f).line_key
        = f.line_key := by
    intro f
    by_cases h : f.line_key = lineKey <;> simp [h]
  have hmap := map_key_idem
    (fun f : Fix => if f.line_key = lineKey then { f with status := .pending } else f) hg fixes
  have hfind2 := find?_key_map
    (fun f : Fix => if f.line_key = lineKey then { f with status := .pending } else f) hk fixes lineKey
  rcases hf : fixes.find? (fun f => f.line_key = lineKey) with _ | f0
  · rw [hf] at hfind2
    rw [Option.map_none'] at hfind2
    refine ⟨?_, ?_, ?_⟩
    · simp only [resetTwice, resetOnce, handleSingleLineReset]
      exact hmap
    · intro hsome
      rw [hf] at hsome
      simp at hsome
    · intro _
      simp [resetTwice, resetOnce, handleSingleLineReset, hf, hfind2]
  · rw [hf] at hfind2
    rw [Option.map_some'] at hfind2
    have hp : f0.line_key = lineKey := by
      have := List.find?_some hf
      simpa using this
    refine ⟨?_, ?_, ?_⟩
    · simp only [resetTwice, resetOnce, handleSingleLineReset]
      exact hmap
    · intro _ s1 hs1
      simp only [resetOnce, handleSingleLineReset, hf] at hs1
      simp only [resetTwice, resetOnce, handleSingleLineReset, hf, hfind2, hp, if_pos]
      cases hst : f0.status <;> simp [hst] at hs1 <;> simp [← hs1]
    · intro hnone
      rw [hf] at hnone
      cases hnone

/-! ## C1: count invariant -/

/-- C1: the claim states that after each review transition the summary
satisfies accepted + rejected + pending = total. False: a single Reset
applied to a fix that is already Pending increments pending_count
without decrementing anything, so a consistent summary drifts. -/
theorem c1_counterexample :
    sumInv ⟨1, 0, 0, 1, 0⟩ ∧
    (handleSingleLineReset [⟨"1", "int x;", .pending⟩] (some ⟨1, 0, 0, 1, 0⟩)
        "1" (.ok true)).2 = some ⟨1, 0, 0, 2, 0⟩ ∧
    ¬ sumInv ⟨1, 0, 0, 2, 0⟩ := by
  decide

/-- C1 amended: single accept and reject transitions always preserve
the count invariant; a Reset preserves it when the targeted fix is not
already Pending; accept-all and reject-all rewrite the counts to (n, 0,
0) resp. (0, n, 0) for n the number of actionable fixes, so they
preserve the invariant exactly when every counted fix is actionable. -/
theorem c1_count_invariant :
    (∀ (fixes : List Fix) (summary : ReviewSummary) (lineKey : String)
        (action : ReviewAction) (resp : BackendResp) (s2 : ReviewSummary),
      sumInv summary →
      (handleReviewAction fixes (some summary) lineKey action resp).2 = some s2 →
      sumInv s2) ∧
    (∀ (fixes : List Fix) (summary : ReviewSummary) (lineKey : String)
        (resp : BackendResp) (s2 : ReviewSummary),
      sumInv summary →
      (∀ f ∈ fixes, f.line_key = lineKey → f.status ≠ .pending) →
      (handleSingleLineReset fixes (some summary) lineKey resp).2 = some s2 →
      sumInv s2) ∧
    (∀ (fixes : List Fix) (summary : ReviewSummary) (snippets : SnippetMap)
        (originalCode : String) (s2 : ReviewSummary),
      getActualChangedFixes fixes snippets originalCode ≠ [] →
      (handleAcceptAll fixes (some summary) snippets originalCode (.ok true)).2 = some s2 →
      (s2.accepted_count =
          ((getActualChangedFixes fixes snippets originalCode).length : Int) ∧
        s2.rejected_count = 0 ∧ s2.pending_count = 0 ∧
        (sumInv s2 ↔
          ((getActualChangedFixes fixes snippets originalCode).length : Int) =
            summary.total_fixes))) ∧
    (∀ (fixes : List Fix) (summary : ReviewSummary) (snippets : SnippetMap)
        (originalCode : String) (s2 : ReviewSummary),
      getActualChangedFixes fixes snippets originalCode ≠ [] →
      (handleRejectAll fixes (some summary) snippets originalCode (.ok true)).2 = some s2 →
      (s2.accepted_count = 0 ∧
        s2.rejected_count =
          ((getActualChangedFixes fixes snippets originalCode).length : Int) ∧
        s2.pending_count = 0 ∧
        (sumInv s2 ↔
          ((getActualChangedFixes fixes snippets originalCode).length : Int) =
            summary.total_fixes))) := by
  refine ⟨?_, ?_, ?_, ?_⟩
  · intro fixes summary lineKey action resp s2 hs h2
    cases resp with
    | error e =>
      simp only [handleReviewAction, Option.some.injEq] at h2
      rw [← h2]; exact hs
    | ok b =>
      cases b with
      | false =>
        simp only [handleReviewAction, Option.some.injEq] at h2
        rw [← h2]; exact hs
      | true =>
        simp only [handleReviewAction, Option.map_some', Option.some.injEq] at h2
        rcases hf : fixes.find? (fun f => f.line_key = lineKey) with _ | f0 <;>
          rw [hf] at h2
        · cases action <;> simp at h2 <;> rw [← h2] <;>
            simp only [sumInv] at hs ⊢ <;> omega
        · cases hst : f0.status <;> cases action <;> simp [hst] at h2 <;> rw [← h2] <;>
            simp only [sumInv] at hs ⊢ <;> omega
  · intro fixes summary lineKey resp s2 hs hnp h2
    cases resp with
    | error e =>
      simp only [handleSingleLineReset, Option.some.injEq] at h2
      rw [← h2]; exact hs
    | ok b =>
      cases b with
      | false =>
        simp only [handleSingleLineReset, Option.some.injEq] at h2
        rw [← h2]; exact hs
      | true =>
        simp only [handleSingleLineReset] at h2
        rcases hf : fixes.find? (fun f => f.line_key = lineKey) with _ | f0 <;>
          rw [hf] at h2
        · simp at h2; rw [← h2]; exact hs
        · have hmem := List.mem_of_find?_eq_some hf
          have hkey : f0.line_key = lineKey := by
            have := List.find?_some hf
            simpa using this
          have hstatus := hnp f0 hmem hkey
          cases hst : f0.status with
          | pending => exact absurd hst hstatus
          | accepted =>
            simp [hst] at h2; rw [← h2]
            simp only [sumInv] at hs ⊢; omega
          | rejected =>
            simp [hst] at h2; rw [← h2]
            simp only [sumInv] at hs ⊢; omega
  · intro fixes summary snippets originalCode s2 hne h2
    simp only [handleAcceptAll] at h2
    rw [if_neg (by simpa using hne)] at h2
    simp only [Option.map_some', Option.some.injEq] at h2
    rw [← h2]
    refine ⟨by simp, by simp, by simp, ?_⟩
    simp [sumInv]
  · intro fixes summary snippets originalCode s2 hne h2
    simp only [handleRejectAll] at h2
    rw [if_neg (by simpa using hne)] at h2
    simp only [Option.map_some', Option.some.injEq] at h2
    rw [← h2]
    refine ⟨by simp, by simp, by simp, ?_⟩
    simp [sumInv]

/-! ## C7: accept-all / reject-all -/

/-- C7: the claim states that acceptAll always recomputes the summary
from scratch as (number of actionable fixes, 0, 0). False when there is
no actionable fix: the handler returns before touching anything, so a
nonzero pending count survives where the claim demands (0, 0, 0). -/
theorem c7_counterexample :
    getActualChangedFixes [⟨"1", "int x;", .pending⟩] [("1", some "int x;")] "int x;" = [] ∧
    (handleAcceptAll [⟨"1", "int x;", .pending⟩] (some ⟨1, 0, 0, 1, 0⟩)
        [("1", some "int x;")] "int x;" (.ok true)).2 = some ⟨1, 0, 0, 1, 0⟩ ∧
    (⟨1, 0, 0, 1, 0⟩ : ReviewSummary).pending_count ≠ 0 := by
  decide

theorem contains_filtered_key (fixes : List Fix) (q : Fix → Bool)
    (hq : ∀ f g : Fix, f.line_key = g.line_key → q f = q g)
    (f : Fix) (hf : f ∈ fixes) :
    ((fixes.filter q).map (·.line_key)).contains f.line_key = q f := by
  cases hqf : q f with
  | true =>
    have hmem : f.line_key ∈ (fixes.filter q).map (·.line_key) :=
      List.mem_map_of_mem _ (List.mem_filter.mpr ⟨hf, hqf⟩)
    simpa [List.contains, List.elem_iff] using hmem
  | false =>
    have hnmem : f.line_key ∉ (fixes.filter q).map (·.line_key) := by
      intro hmem
      rcases List.mem_map.mp hmem with ⟨g, hg, hkey⟩
      have hgq : q g = true := (List.mem_filter.mp hg).2
      have heq : q g = q f := hq g f hkey
      rw [heq, hqf] at hgq
      cases hgq
    simpa [List.contains, List.elem_iff] using hnmem

/-- Whether the change classification of a line key is actionable. -/
def actionableKey (snippets : SnippetMap) (originalCode : String) (k : String) : Bool :=
  (getLineChangeType snippets k (splitNewlines originalCode)).kind ≠ ChangeKind.unchanged

/-- C7 amended: when at least one actionable fix exists, acceptAll sets
exactly the actionable fixes to Accepted and recomputes the summary
from scratch as (number of actionable fixes, 0, 0), and rejectAll
mirrors this with (0, n, 0); with no actionable fixes both handlers
return without touching fixes or summary (shown separately by the
counterexample). -/
theorem c7_accept_all (fixes : List Fix) (summary : ReviewSummary)
    (snippets : SnippetMap) (originalCode : String)
    (hne : getActualChangedFixes fixes snippets originalCode ≠ []) :
    (handleAcceptAll fixes (some summary) snippets originalCode (.ok true)).2 =
      some { summary with
              accepted_count := ((getActualChangedFixes fixes snippets originalCode).length : Int),
              rejected_count := 0, pending_count := 0 } ∧
    (handleAcceptAll fixes (some summary) snippets originalCode (.ok true)).1 =
      fixes.map (fun f =>
        if actionableKey snippets originalCode f.line_key then
          { f with status := .accepted } else f) ∧
    (handleRejectAll fixes (some summary) snippets originalCode (.ok true)).2 =
      some { summary with
              accepted_count := 0,
              rejected_count := ((getActualChangedFixes fixes snippets originalCode).length : Int),
              pending_count := 0 } ∧
    (handleRejectAll fixes (some summary) snippets originalCode (.ok true)).1 =
      fixes.map (fun f =>
        if actionableKey snippets originalCode f.line_key then
          { f with status := .rejected } else f) := by
  have horig : originalCode ≠ "" := by
    intro h
    apply hne
    simp [getActualChangedFixes, h]
  have hchanged : getActualChangedFixes fixes snippets originalCode =
      fixes.filter (fun f => actionableKey snippets originalCode f.line_key) := by
    simp [getActualChangedFixes, horig, actionableKey]
  have hcontains : ∀ f ∈ fixes,
      (((fixes.filter (fun f => actionableKey snippets originalCode f.line_key)).map
        (·.line_key)).contains f.line_key) = actionableKey snippets originalCode f.line_key := by
    intro f hf
    exact contains_filtered_key fixes _ (fun f g h => by simp [h]) f hf
  have hlen : ¬ ((getActualChangedFixes fixes snippets originalCode).map
      (·.line_key)).length = 0 := by
    simpa using hne
  refine ⟨?_, ?_, ?_, ?_⟩
  · simp only [handleAcceptAll]
    rw [if_neg hlen]
    simp
  · simp only [handleAcceptAll]
    rw [if_neg hlen]
    simp only [hchanged]
    apply List.map_congr_left
    intro f hf
    rw [hcontains f hf]
  · simp only [handleRejectAll]
    rw [if_neg hlen]
    simp
  · simp only [handleRejectAll]
    rw [if_neg hlen]
    simp only [hchanged]
    apply List.map_congr_left
    intro f hf
    rw [hcontains f hf]

/-! ## C8: failure leaves local state untouched -/

/-- C8: when the backend reports failure or the call throws, every
mutation handler leaves both the fixes and the summary exactly as they
were. -/
theorem c8_failure_preserves_state (fixes : List Fix) (summary : Option ReviewSummary)
    (lineKey : String) (action : ReviewAction) (snippets : SnippetMap)
    (originalCode : String) (resp : BackendResp) (hresp : resp ≠ .ok true) :
    handleReviewAction fixes summary lineKey action resp = (fixes, summary) ∧
    handleSingleLineReset fixes summary lineKey resp = (fixes, summary) ∧
    handleAcceptAll fixes summary snippets originalCode resp = (fixes, summary) ∧
    handleRejectAll fixes summary snippets originalCode resp = (fixes, summary) := by
  cases resp with
  | error e =>
    refine ⟨rfl, rfl, ?_, ?_⟩ <;>
      · simp only [handleAcceptAll, handleRejectAll]
        split <;> rfl
  | ok b =>
    cases b with
    | false =>
      refine ⟨rfl, rfl, ?_, ?_⟩ <;>
        · simp only [handleAcceptAll, handleRejectAll]
          split <;> rfl
    | true => exact absurd rfl hresp

theorem c8_failure_preserves_state_witness :
    ((Except.ok false : BackendResp) ≠ .ok true) ∧
    handleReviewAction [⟨"1", "int x;", .pending⟩] (some ⟨1, 0, 0, 1, 0⟩)
        "1" .accept (.ok false) = ([⟨"1", "int x;", .pending⟩], some ⟨1, 0, 0, 1, 0⟩) ∧
    handleAcceptAll [⟨"1", "int x;", .pending⟩] (some ⟨1, 0, 0, 1, 0⟩)
        [("1", some "int y;")] "int x;" (.ok false) =
      ([⟨"1", "int x;", .pending⟩], some ⟨1, 0, 0, 1, 0⟩) :=
  ⟨by simp,
   (c8_failure_preserves_state [⟨"1", "int x;", .pending⟩] (some ⟨1, 0, 0, 1, 0⟩)
     "1" .accept [("1", some "int y;")] "int x;" (.ok false) (by simp)).1,
   (c8_failure_preserves_state [⟨"1", "int x;", .pending⟩] (some ⟨1, 0, 0, 1, 0⟩)
     "1" .accept [("1", some "int y;")] "int x;" (.ok false) (by simp)).2.2.1⟩

/-! ## Witnesses for the review-side theorems -/

theorem c1_count_invariant_witness :
    sumInv ⟨2, 1, 0, 1, 0⟩ ∧
    (handleReviewAction [⟨"1", "int x;", .pending⟩] (some ⟨2, 1, 0, 1, 0⟩)
        "1" .accept (.ok true)).2 = some ⟨2, 2, 0, 0, 0⟩ ∧
    sumInv ⟨2, 2, 0, 0, 0⟩ :=
  ⟨by decide, by decide,
   c1_count_invariant.1 [⟨"1", "int x;", .pending⟩] ⟨2, 1, 0, 1, 0⟩ "1" .accept
     (.ok true) ⟨2, 2, 0, 0, 0⟩ (by decide) (by decide)⟩

theorem c5_reset_idempotence_witness :
    (([⟨"1", "int x;", .accepted⟩] :
        List Fix).find? (fun f => f.line_key = "1")).isSome ∧
    (resetOnce [⟨"1", "int x;", .accepted⟩] (some ⟨1, 1, 0, 0, 0⟩) "1").2 =
      some ⟨1, 0, 0, 1, 0⟩ ∧
    (resetTwice [⟨"1", "int x;", .accepted⟩] (some ⟨1, 1, 0, 0, 0⟩) "1").2 =
      some ⟨1, 0, 0, 2, 0⟩ :=
  ⟨by decide, by decide, by
    have h := (c5_reset_idempotence [⟨"1", "int x;", .accepted⟩] ⟨1, 1, 0, 0, 0⟩ "1").2.1
      (by decide) ⟨1, 0, 0, 1, 0⟩ (by decide)
    simpa using h⟩

def c7fixes : List Fix :=
  [⟨"1", "", .pending⟩, ⟨"2", "", .pending⟩, ⟨"3", "", .pending⟩,
   ⟨"4", "", .pending⟩, ⟨"5", "", .pending⟩]

def c7snips : SnippetMap :=
  [("1", some "int a = 0;"), ("2", some "int b = 0;"), ("3", some "int c = 0;"),
   ("4", some "int d;"), ("5", some "int e;")]

def c7orig : String := "int a;\nint b;\nint c;\nint d;\nint e;"

theorem c7_accept_all_witness :
    (getActualChangedFixes c7fixes c7snips c7orig).map (·.line_key) = ["1", "2", "3"] ∧
    getActualChangedFixes c7fixes c7snips c7orig ≠ [] ∧
    (handleAcceptAll c7fixes (some ⟨5, 0, 0, 5, 0⟩) c7snips c7orig (.ok true)).2 =
      some ⟨5, 3, 0, 0, 0⟩ :=
  ⟨by decide, by decide, by
    have h := (c7_accept_all c7fixes ⟨5, 0, 0, 5, 0⟩ c7snips c7orig (by decide)).1
    simpa using h⟩

/-! ## C9: grouping partition -/

/-- C9: the claim states that every line key not covered by a violation
is put in a singleton orphan group. False: the grouping function knows
nothing about violations and buckets keys by base line, so the keys "5"
and "5a" share one two-element group. -/
theorem c9_counterexample :
    getLineGroups [("5", some "int a;"), ("5a", some "int b;")] = [("5", ["5", "5a"])] ∧
    ¬ (∀ g ∈ getLineGroups [("5", some "int a;"), ("5a", some "int b;")], g.2.length = 1) := by
  decide

theorem addToGroup_members_perm (groups : List (String × List String)) (base k : String) :
    (groupMembers (addToGroup groups base k)).Perm (groupMembers groups ++ [k]) := by
  induction groups with
  | nil => simp [addToGroup, groupMembers]
  | cons p rest ih =>
    rcases p with ⟨b, ks⟩
    by_cases h : b = base
    · simp only [addToGroup, if_pos h, groupMembers, List.map_cons, List.flatten_cons,
        List.append_assoc]
      exact List.Perm.append_left ks (List.perm_append_comm)
    · simp only [addToGroup, if_neg h, groupMembers, List.map_cons, List.flatten_cons,
        List.append_assoc]
      exact List.Perm.append_left ks ih

theorem getLineGroups_perm_aux (snippets : SnippetMap) :
    ∀ groups : List (String × List String),
      (groupMembers (snippets.foldl
        (fun groups p =>
          if leadingDigits p.1 = "" then groups
          else addToGroup groups (leadingDigits p.1) p.1) groups)).Perm
        (groupMembers groups ++
          ((snippets.map Prod.fst).filter (fun k => leadingDigits k != ""))) := by
  induction snippets with
  | nil => intro groups; simp
  | cons p rest ih =>
    intro groups
    simp only [List.foldl_cons, List.map_cons]
    by_cases h : leadingDigits p.1 = ""
    · rw [if_pos h]
      have hfilter : (p.1 :: rest.map Prod.fst).filter (fun k => leadingDigits k != "") =
          (rest.map Prod.fst).filter (fun k => leadingDigits k != "") := by
        simp [List.filter_cons, h]
      rw [hfilter]
      exact ih groups
    · rw [if_neg h]
      have hfilter : (p.1 :: rest.map Prod.fst).filter (fun k => leadingDigits k != "") =
          p.1 :: (rest.map Prod.fst).filter (fun k => leadingDigits k != "") := by
        simp [List.filter_cons, h]
      rw [hfilter]
      refine (ih (addToGroup groups (leadingDigits p.1) p.1)).trans ?_
      refine ((addToGroup_members_perm groups (leadingDigits p.1) p.1).append_right _).trans ?_
      rw [List.append_assoc]
      exact List.Perm.append_left _ (List.perm_append_comm.trans (by simp))

theorem addToGroup_bases (groups : List (String × List String)) (base k : String)
    (hbase : leadingDigits k = base)
    (hinv : ∀ g ∈ groups, ∀ x ∈ g.2, leadingDigits x = g.1) :
    ∀ g ∈ addToGroup groups base k, ∀ x ∈ g.2, leadingDigits x = g.1 := by
  induction groups with
  | nil =>
    intro g hg x hx
    simp [addToGroup] at hg
    rw [hg] at hx ⊢
    simp at hx ⊢
    rw [hx]
    exact hbase
  | cons p rest ih =>
    rcases p with ⟨b, ks⟩
    by_cases h : b = base
    · intro g hg x hx
      simp only [addToGroup, if_pos h, List.mem_cons] at hg
      rcases hg with hg | hg
      · rw [hg] at hx ⊢
        simp only [List.mem_append, List.mem_singleton] at hx
        rcases hx with hx | hx
        · exact hinv (b, ks) (by simp) x hx
        · rw [hx, hbase, h]
      · exact hinv g (by simp [hg]) x hx
    · intro g hg x hx
      simp only [addToGroup, if_neg h, List.mem_cons] at hg
      rcases hg with hg | hg
      · rw [hg] at hx ⊢
        exact hinv (b, ks) (by simp) x hx
      · exact ih (fun g hg => hinv g (by simp [hg])) g hg x hx

theorem getLineGroups_bases_aux (snippets : SnippetMap) :
    ∀ groups : List (String × List String),
      (∀ g ∈ groups, ∀ x ∈ g.2, leadingDigits x = g.1) →
      ∀ g ∈ (snippets.foldl
        (fun groups p =>
          if leadingDigits p.1 = "" then groups
          else addToGroup groups (leadingDigits p.1) p.1) groups),
        ∀ x ∈ g.2, leadingDigits x = g.1 := by
  induction snippets with
  | nil => intro groups hinv; simpa using hinv
  | cons p rest ih =>
    intro groups hinv
    simp only [List.foldl_cons]
    by_cases h : leadingDigits p.1 = ""
    · rw [if_pos h]; exact ih groups hinv
    · rw [if_neg h]
      exact ih _ (addToGroup_bases groups _ p.1 rfl hinv)

/-- C9 amended: the concatenation of all group member lists is a
permutation of the snippet keys that carry a leading digit run, each
occurring exactly once (the partition property), and every group
collects exactly the keys whose base line equals the group key, so keys
sharing a base line land in one group rather than in singleton orphan
groups. -/
theorem c9_partition (snippets : SnippetMap) :
    (groupMembers (getLineGroups snippets)).Perm
      ((snippets.map Prod.fst).filter (fun k => leadingDigits k != "")) ∧
    ∀ g ∈ getLineGroups snippets, ∀ x ∈ g.2, leadingDigits x = g.1 := by
  constructor
  · have h := getLineGroups_perm_aux snippets []
    simpa [getLineGroups, groupMembers] using h
  · have h := getLineGroups_bases_aux snippets [] (by simp)
    simpa [getLineGroups] using h

theorem c9_partition_witness :
    (groupMembers (getLineGroups [("5", some "int a;"), ("5a", some "int b;")])).Perm
      ["5", "5a"] ∧
    leadingDigits "5a" = "5" :=
  ⟨by simpa using (c9_partition [("5", some "int a;"), ("5a", some "int b;")]).1,
   (c9_partition [("5", some "int a;"), ("5a", some "int b;")]).2
     ("5", ["5", "5a"]) (by decide) "5a" (by decide)⟩

/-! ## C10: cursor auto-advance and navigation clamping -/

theorem find?_congr_mem {α : Type} (l : List α) (p q : α → Bool)
    (h : ∀ a ∈ l, p a = q a) : l.find? p = l.find? q := by
  induction l with
  | nil => rfl
  | cons a l ih =>
    rw [List.find?_cons, List.find?_cons, h a (by simp)]
    cases hq : q a with
    | true => rfl
    | false => exact ih fun a ha => h a (by simp [ha])

theorem find?_key_self (l : List Fix) (hnd : (l.map (·.line_key)).Nodup)
    (f : Fix) (hf : f ∈ l) :
    l.find? (fun g => g.line_key = f.line_key) = some f := by
  induction l with
  | nil => cases hf
  | cons a l ih =>
    simp only [List.map_cons, List.nodup_cons] at hnd
    rcases List.mem_cons.mp hf with hf | hf
    · rw [hf]
      simp [List.find?_cons]
    · have hne : ¬ (a.line_key = f.line_key) := by
        intro h
        exact hnd.1 (h ▸ List.mem_map_of_mem _ hf)
      simp only [List.find?_cons, decide_eq_false hne]
      exact ih hnd.2 hf

theorem findIdx?_key_get (l : List Fix) (k : String) :
    ∀ j, l.findIdx? (fun f => f.line_key = k) = some j →
      ∃ g, l.get? j = some g ∧ g.line_key = k := by
  induction l with
  | nil => intro j h; simp [List.findIdx?] at h
  | cons a l ih =>
    intro j h
    rw [List.findIdx?_cons, List.findIdx?_succ] at h
    by_cases hp : a.line_key = k
    · simp only [decide_eq_true hp, if_true, Option.some.injEq] at h
      exact ⟨a, by simp [← h], hp⟩
    · rw [decide_eq_false hp] at h
      simp only [Bool.false_eq_true, if_false] at h
      rcases hfi : l.findIdx? (fun f => f.line_key = k) with _ | i
      · rw [hfi] at h
        simp at h
      · rw [hfi] at h
        simp only [Option.map_some'] at h
        have hj : j = i + 1 := by
          simpa using h.symm
        rcases ih i hfi with ⟨g, hg, hk⟩
        refine ⟨g, ?_, hk⟩
        rw [hj]
        simpa using hg

theorem findIdx?_isSome_key (l : List Fix) (f : Fix) (hf : f ∈ l) :
    ∃ j, l.findIdx? (fun g => g.line_key = f.line_key) = some j := by
  rcases h : l.findIdx? (fun g => g.line_key = f.line_key) with _ | j
  · have := List.findIdx?_eq_none_iff.mp h f hf
    simp at this
  · exact ⟨j, h⟩

theorem nodup_keys_get_ne (l : List Fix) (hnd : (l.map (·.line_key)).Nodup)
    (i j : Nat) (gi gj : Fix) (hi : l.get? i = some gi) (hj : l.get? j = some gj)
    (hij : i ≠ j) : gi.line_key ≠ gj.line_key := by
  intro hkey
  apply hij
  have hi2 : (l.map (·.line_key)).get? i = some gi.line_key := by
    rw [List.get?_map, hi]; rfl
  have hj2 : (l.map (·.line_key)).get? j = some gj.line_key := by
    rw [List.get?_map, hj]; rfl
  have hlen : i < (l.map (·.line_key)).length := by
    by_contra hcon
    rw [List.get?_eq_none.mpr (by omega)] at hi2
    cases hi2
  exact List.get?_inj hlen hnd (by rw [hi2, hj2, hkey])

theorem changed_mem_fixes (fixes : List Fix) (snippets : SnippetMap)
    (originalCode : String) :
    ∀ f ∈ getActualChangedFixes fixes snippets originalCode, f ∈ fixes := by
  intro f hf
  unfold getActualChangedFixes at hf
  by_cases h : originalCode = ""
  · rw [if_pos h] at hf; cases hf
  · rw [if_neg h] at hf
    exact (List.mem_filter.mp hf).1

theorem changed_keys_nodup (fixes : List Fix) (snippets : SnippetMap)
    (originalCode : String) (hnd : (fixes.map (·.line_key)).Nodup) :
    ((getActualChangedFixes fixes snippets originalCode).map (·.line_key)).Nodup := by
  unfold getActualChangedFixes
  by_cases h : originalCode = ""
  · rw [if_pos h]; simp
  · rw [if_neg h]
    exact ((List.filter_sublist fixes).map (·.line_key)).nodup hnd

def c10fixes : List Fix := [⟨"1", "int x;", .pending⟩, ⟨"2", "int y;", .pending⟩]

def c10snips : SnippetMap := [("1", some "int x = 0;"), ("2", some "int y = 0;")]

def c10orig : String := "int x;\nint y;"

def c10post : List Fix := [⟨"1", "int x;", .pending⟩, ⟨"2", "int y;", .accepted⟩]

/-- C10: the claim states that after a successful accept the cursor
moves only to a fix whose status (after the action) is Pending, and
stays put when none exists after the current position. False: the
auto-advance closure reads the pre-action statuses, so accepting the
fix sitting after the cursor moves the cursor onto that fix, which is
already Accepted, although per the post-action state no pending
actionable fix follows the current one. -/
theorem c10_counterexample :
    autoAdvanceIndex c10fixes c10snips c10orig 0 "2" .accept = some 1 ∧
    (c10post.get? 1).map (·.status) = some .accepted ∧
    claimNextPendingKey c10post (getActualChangedFixes c10post c10snips c10orig)
      (some "1") = none := by
  decide

/-- C10 amended: under distinct line keys, the auto-advance target is
exactly the first actionable fix occurring strictly after the current
fix in the actionable ordering whose status immediately before the
action was Pending (so accepting a fix beyond the cursor can land the
cursor on that just-reviewed fix); when no such fix exists the cursor
stays (no wrap-around). Manual navigation is clamped: next does nothing
on the last actionable fix (or when there are none), previous does
nothing on the first, and any navigation target is in bounds. -/
theorem c10_navigation (fixes : List Fix) (snippets : SnippetMap)
    (originalCode : String) (currentFixIndex : Nat) (lineKey : String)
    (action : ReviewAction)
    (hnd : (fixes.map (·.line_key)).Nodup) :
    (autoAdvanceIndex fixes snippets originalCode currentFixIndex lineKey action =
      match claimNextPendingKey fixes (getActualChangedFixes fixes snippets originalCode)
          ((fixes.get? currentFixIndex).map (·.line_key)) with
      | none => none
      | some k => fixes.findIdx? (fun f => f.line_key = k)) ∧
    (∀ ck i, (fixes.get? currentFixIndex).map (·.line_key) = some ck →
      (getActualChangedFixes fixes snippets originalCode).findIdx?
        (fun f => f.line_key = ck) = some i →
      i + 1 = (getActualChangedFixes fixes snippets originalCode).length →
      nextChangeIndex fixes snippets originalCode currentFixIndex = none) ∧
    (getActualChangedFixes fixes snippets originalCode = [] →
      nextChangeIndex fixes snippets originalCode currentFixIndex = none) ∧
    (∀ ck, (fixes.get? currentFixIndex).map (·.line_key) = some ck →
      (getActualChangedFixes fixes snippets originalCode).findIdx?
        (fun f => f.line_key = ck) = some 0 →
      prevChangeIndex fixes snippets originalCode currentFixIndex = none) ∧
    (∀ j, nextChangeIndex fixes snippets originalCode currentFixIndex = some j →
      j < fixes.length) ∧
    (∀ j, prevChangeIndex fixes snippets originalCode currentFixIndex = some j →
      j < fixes.length) := by
  have hmemch := changed_mem_fixes fixes snippets originalCode
  have hckeys := changed_keys_nodup fixes snippets originalCode hnd
  refine ⟨?_, ?_, ?_, ?_, ?_, ?_⟩
  · -- auto-advance refines the pre-action claim reading
    simp only [autoAdvanceIndex, claimNextPendingKey]
    have hpredeq :
        ((getActualChangedFixes fixes snippets originalCode).drop
          (afterCurrentDrop (getActualChangedFixes fixes snippets originalCode)
            ((fixes.get? currentFixIndex).map (·.line_key)))).find?
          (fun f =>
            match fixes.find? (fun g => g.line_key = f.line_key) with
            | some g => g.status = .pending
            | none => false) =
        ((getActualChangedFixes fixes snippets originalCode).drop
          (afterCurrentDrop (getActualChangedFixes fixes snippets originalCode)
            ((fixes.get? currentFixIndex).map (·.line_key)))).find?
          (fun f => f.status = .pending) := by
      apply find?_congr_mem
      intro f hf
      have hfm : f ∈ fixes := hmemch f (List.mem_of_mem_drop hf)
      rw [find?_key_self fixes hnd f hfm]
    rw [hpredeq]
    cases hfind : ((getActualChangedFixes fixes snippets originalCode).drop
        (afterCurrentDrop (getActualChangedFixes fixes snippets originalCode)
          ((fixes.get? currentFixIndex).map (·.line_key)))).find?
        (fun f => f.status = .pending) with
    | none => rfl
    | some nf =>
      have hnfdrop := List.mem_of_find?_eq_some hfind
      have hnfch : nf ∈ getActualChangedFixes fixes snippets originalCode :=
        List.mem_of_mem_drop hnfdrop
      have hnffix : nf ∈ fixes := hmemch nf hnfch
      have hidx := findIdx?_key_map
        (fun f => if f.line_key = lineKey then { f with status := statusAfter action } else f)
        (fun f => by by_cases h : f.line_key = lineKey <;> simp [h]) fixes nf.line_key
      obtain ⟨j, hj⟩ := findIdx?_isSome_key fixes nf hnffix
      obtain ⟨g, hg, hgk⟩ := findIdx?_key_get fixes nf.line_key j hj
      have hjlt : j < fixes.length := by
        by_contra hcon
        rw [List.get?_eq_none.mpr (by omega)] at hg
        cases hg
      have hne : j ≠ currentFixIndex := by
        rcases hcf : fixes.get? currentFixIndex with _ | cf
        · have := List.get?_eq_none.mp hcf
          omega
        · -- the key after the current position differs from the current key
          have hnfck : nf.line_key ≠ cf.line_key := by
            rw [hcf] at hnfdrop
            simp only [Option.map_some'] at hnfdrop
            rcases hfi : (getActualChangedFixes fixes snippets originalCode).findIdx?
                (fun f => f.line_key = cf.line_key) with _ | i
            · have hforall := List.findIdx?_eq_none_iff.mp hfi
              have := hforall nf hnfch
              simp at this
              exact fun hcontra => this hcontra
            · simp only [afterCurrentDrop, hfi] at hnfdrop
              obtain ⟨gci, hgci, hgcik⟩ :=
                findIdx?_key_get (getActualChangedFixes fixes snippets originalCode)
                  cf.line_key i hfi
              obtain ⟨q, hq⟩ := List.mem_iff_get?.mp hnfdrop
              rw [List.get?_drop] at hq
              have hdiff : i + 1 + q ≠ i := by omega
              have := nodup_keys_get_ne (getActualChangedFixes fixes snippets originalCode)
                hckeys (i + 1 + q) i nf gci hq hgci hdiff
              rw [hgcik] at this
              exact this
          intro hcontra
          rw [hcontra, hcf] at hg
          have hcfg : g = cf := by simpa using hg.symm
          rw [hcfg] at hgk
          exact hnfck hgk.symm
      simp only [hidx, hj, Option.map_some']
      rw [if_pos hne]
  · -- next is clamped at the last actionable entry
    intro ck i hck hfi hlen
    simp only [nextChangeIndex, hck, hfi]
    rw [if_neg (by omega)]
  · -- next does nothing when nothing is actionable
    intro hch
    simp only [nextChangeIndex, hch, List.findIdx?_nil, List.length_nil]
    split
    · rename_i h
      split at h <;> omega
    · rfl
  · -- previous is clamped at the first actionable entry
    intro ck hck hfi
    simp only [prevChangeIndex, hck, hfi]
    rw [if_neg (by norm_num)]
  · -- next target is in bounds
    intro j hj
    simp only [nextChangeIndex] at hj
    split at hj
    · split at hj
      · cases hj
      · split at hj
        · cases hj
        · split at hj
          · simp only [Option.some.injEq] at hj
            omega
          · cases hj
    · cases hj
  · -- previous target is in bounds
    intro j hj
    simp only [prevChangeIndex] at hj
    split at hj
    · split at hj
      · cases hj
      · split at hj
        · cases hj
        · split at hj
          · simp only [Option.some.injEq] at hj
            omega
          · cases hj
    · cases hj

theorem c10_navigation_witness :
    ((c10fixes.map (·.line_key)).Nodup) ∧
    autoAdvanceIndex c10fixes c10snips c10orig 0 "1" .accept =
      (match claimNextPendingKey c10fixes (getActualChangedFixes c10fixes c10snips c10orig)
          ((c10fixes.get? 0).map (·.line_key)) with
      | none => none
      | some k => c10fixes.findIdx? (fun f => f.line_key = k)) :=
  ⟨by decide, (c10_navigation c10fixes c10snips c10orig 0 "1" .accept (by decide)).1⟩

/-! ## Scheduler lemmas -/

theorem processQueueFuel_current_le (max : Nat) :
    ∀ (fuel : Nat) (s : SchedState), s.current ≤ (max : Int) →
      (processQueueFuel max fuel s).current ≤ (max : Int) := by
  intro fuel
  induction fuel with
  | zero => intro s h; exact h
  | succ n ih =>
    intro s h
    simp only [processQueueFuel]
    cases hq : s.queue with
    | nil => exact h
    | cons r rest =>
      by_cases hc : s.current < (max : Int)
      · simp only [if_pos hc]
        refine ih _ ?_
        show s.current + 1 ≤ (max : Int)
        omega
      · simp only [if_neg hc]
        exact h

theorem processQueue_current_le (max : Nat) (s : SchedState)
    (h : s.current ≤ (max : Int)) : (processQueue max s).current ≤ (max : Int) :=
  processQueueFuel_current_le max s.queue.length s h

theorem processQueueFuel_outcomes (max : Nat) :
    ∀ (fuel : Nat) (s : SchedState),
      (processQueueFuel max fuel s).outcomes = s.outcomes := by
  intro fuel
  induction fuel with
  | zero => intro s; rfl
  | succ n ih =>
    intro s
    simp only [processQueueFuel]
    cases hq : s.queue with
    | nil => rfl
    | cons r rest =>
      by_cases hc : s.current < (max : Int)
      · simp only [if_pos hc]
        exact ih _
      · simp only [if_neg hc]

theorem processQueue_outcomes (max : Nat) (s : SchedState) :
    (processQueue max s).outcomes = s.outcomes :=
  processQueueFuel_outcomes max s.queue.length s

theorem processQueueFuel_balance (max : Nat) :
    ∀ (fuel : Nat) (s : SchedState),
      inFlight (processQueueFuel max fuel s) - (processQueueFuel max fuel s).current =
        inFlight s - s.current := by
  intro fuel
  induction fuel with
  | zero => intro s; rfl
  | succ n ih =>
    intro s
    simp only [processQueueFuel]
    cases hq : s.queue with
    | nil => rfl
    | cons r rest =>
      by_cases hc : s.current < (max : Int)
      · simp only [if_pos hc]
        rw [ih]
        simp [inFlight]
        omega
      · simp only [if_neg hc]

theorem processQueue_balance (max : Nat) (s : SchedState) :
    inFlight (processQueue max s) - (processQueue max s).current =
      inFlight s - s.current :=
  processQueueFuel_balance max s.queue.length s

theorem schedStep_current_le (max : Nat) (s : SchedState) (e : SchedEvent)
    (h : s.current ≤ (max : Int)) : (schedStep max s e).current ≤ (max : Int) := by
  cases e with
  | enqueue id priority => exact processQueue_current_le _ _ h
  | complete id =>
    simp only [schedStep]
    split
    · refine processQueue_current_le _ _ ?_
      show s.current - 1 ≤ (max : Int)
      omega
    · exact h
  | failHttp id =>
    simp only [schedStep]
    split
    · refine processQueue_current_le _ _ ?_
      show s.current - 1 - 1 ≤ (max : Int)
      omega
    · exact h
  | failFetch id =>
    simp only [schedStep]
    split
    · refine processQueue_current_le _ _ ?_
      show s.current - 1 ≤ (max : Int)
      omega
    · exact h
  | cancel id =>
    simp only [schedStep]
    split
    · exact h
    · exact h
  | abortFired id =>
    simp only [schedStep]
    split
    · refine processQueue_current_le _ _ ?_
      show s.current - 1 ≤ (max : Int)
      omega
    · exact h

theorem schedRunFrom_current_le (max : Nat) (evs : List SchedEvent) :
    ∀ s : SchedState, s.current ≤ (max : Int) →
      (schedRunFrom max s evs).current ≤ (max : Int) := by
  induction evs with
  | nil => intro s h; exact h
  | cons e evs ih =>
    intro s h
    exact ih _ (schedStep_current_le max s e h)

theorem mem_of_contains_nat (l : List Nat) (id : Nat)
    (h : l.contains id = true) : id ∈ l :=
  List.elem_iff.mp h

theorem schedStep_balance (max : Nat) (s : SchedState) (e : SchedEvent) :
    inFlight (schedStep max s e) - (schedStep max s e).current ≤
      inFlight s - s.current + (if isFailHttp e then 1 else 0) := by
  cases e with
  | enqueue id priority =>
    simp only [schedStep, isFailHttp]
    rw [processQueue_balance]
    simp [inFlight]
  | complete id =>
    simp only [schedStep, isFailHttp]
    split
    · rename_i h
      rw [processQueue_balance]
      have hmem := mem_of_contains_nat _ _ h
      have hlen := List.length_erase_of_mem hmem
      have hpos := List.length_pos_of_mem hmem
      simp only [inFlight, hlen, eq_self_iff_true, if_true, Bool.false_eq_true, if_false]
      omega
    · simp
  | failHttp id =>
    simp only [schedStep, isFailHttp]
    split
    · rename_i h
      rw [processQueue_balance]
      have hmem := mem_of_contains_nat _ _ h
      have hlen := List.length_erase_of_mem hmem
      have hpos := List.length_pos_of_mem hmem
      simp only [inFlight, hlen, eq_self_iff_true, if_true, Bool.false_eq_true, if_false]
      omega
    · simp
  | failFetch id =>
    simp only [schedStep, isFailHttp]
    split
    · rename_i h
      rw [processQueue_balance]
      have hmem := mem_of_contains_nat _ _ h
      have hlen := List.length_erase_of_mem hmem
      have hpos := List.length_pos_of_mem hmem
      simp only [inFlight, hlen, eq_self_iff_true, if_true, Bool.false_eq_true, if_false]
      omega
    · simp
  | cancel id =>
    simp only [schedStep, isFailHttp]
    split
    · rename_i h
      have hmem := mem_of_contains_nat _ _ h
      have hlen := List.length_erase_of_mem hmem
      have hpos := List.length_pos_of_mem hmem
      simp only [inFlight, hlen, List.length_append, List.length_singleton,
        Bool.false_eq_true, if_false]
      omega
    · simp
  | abortFired id =>
    simp only [schedStep, isFailHttp]
    split
    · rename_i h
      rw [processQueue_balance]
      have hmem := mem_of_contains_nat _ _ h
      have hlen := List.length_erase_of_mem hmem
      have hpos := List.length_pos_of_mem hmem
      simp only [inFlight, hlen, eq_self_iff_true, if_true, Bool.false_eq_true, if_false]
      omega
    · simp

theorem schedRunFrom_balance (max : Nat) (evs : List SchedEvent) :
    ∀ s : SchedState,
      inFlight (schedRunFrom max s evs) - (schedRunFrom max s evs).current ≤
        inFlight s - s.current + (evs.countP isFailHttp : Int) := by
  induction evs with
  | nil => intro s; simp [schedRunFrom]
  | cons e evs ih =>
    intro s
    have h1 := ih (schedStep max s e)
    have h2 := schedStep_balance max s e
    have h3 : ((e :: evs).countP isFailHttp : Int) =
        (evs.countP isFailHttp : Int) + (if isFailHttp e then 1 else 0) := by
      rw [List.countP_cons]
      split <;> simp
    show inFlight (schedRunFrom max (schedStep max s e) evs) -
        (schedRunFrom max (schedStep max s e) evs).current ≤ _
    rw [h3]
    omega

theorem schedStep_outcomes_mono (max : Nat) (s : SchedState) (e : SchedEvent)
    (pr : Nat × Outcome) (h : pr ∈ s.outcomes) :
    pr ∈ (schedStep max s e).outcomes := by
  cases e with
  | enqueue id priority =>
    simp only [schedStep]
    rw [processQueue_outcomes]
    exact h
  | complete id =>
    simp only [schedStep]
    split
    · rw [processQueue_outcomes]
      exact List.mem_cons_of_mem _ h
    · exact h
  | failHttp id =>
    simp only [schedStep]
    split
    · rw [processQueue_outcomes]
      exact List.mem_cons_of_mem _ h
    · exact h
  | failFetch id =>
    simp only [schedStep]
    split
    · rw [processQueue_outcomes]
      exact List.mem_cons_of_mem _ h
    · exact h
  | cancel id =>
    simp only [schedStep]
    split
    · exact h
    · exact h
  | abortFired id =>
    simp only [schedStep]
    split
    · rw [processQueue_outcomes]
      exact h
    · exact h

theorem schedRunFrom_outcomes_mono (max : Nat) (evs : List SchedEvent) :
    ∀ (s : SchedState) (pr : Nat × Outcome), pr ∈ s.outcomes →
      pr ∈ (schedRunFrom max s evs).outcomes := by
  induction evs with
  | nil => intro s pr h; exact h
  | cons e evs ih =>
    intro s pr h
    exact ih _ pr (schedStep_outcomes_mono max s e pr h)

theorem schedStep_complete_settles (max : Nat) (s : SchedState) (id : Nat)
    (h : s.activeMap.contains id = true) :
    (id, Outcome.success) ∈ (schedStep max s (.complete id)).outcomes := by
  simp only [schedStep, if_pos h]
  rw [processQueue_outcomes]
  exact List.mem_cons_self _ _

theorem schedStep_failHttp_settles (max : Nat) (s : SchedState) (id : Nat)
    (h : s.activeMap.contains id = true) :
    (id, Outcome.failure) ∈ (schedStep max s (.failHttp id)).outcomes := by
  simp only [schedStep, if_pos h]
  rw [processQueue_outcomes]
  exact List.mem_cons_self _ _

theorem schedStep_failFetch_settles (max : Nat) (s : SchedState) (id : Nat)
    (h : s.activeMap.contains id = true) :
    (id, Outcome.failure) ∈ (schedStep max s (.failFetch id)).outcomes := by
  simp only [schedStep, if_pos h]
  rw [processQueue_outcomes]
  exact List.mem_cons_self _ _

theorem schedRun_append_cons (max : Nat) (evs post : List SchedEvent) (e : SchedEvent) :
    schedRun max (evs ++ e :: post) =
      schedRunFrom max (schedStep max (schedRun max evs) e) post := by
  simp [schedRun, schedRunFrom, List.foldl_append]

/-! ## C2: scheduler capacity and settlement -/

/-- C2: the claim states that at no point do more than maxConcurrent
requests execute simultaneously and that every enqueued request
eventually settles. Both parts are false. Capacity: with maxConcurrent
2, dispatch requests 1 and 2 and queue 3 and 4; when request 1 settles
through the HTTP-error path, currentRequests is decremented twice, so
processQueue dispatches both 3 and 4 while 2 is still in flight —
three requests executing at once. Settlement: after enqueue, cancel
and the delivery of the resulting AbortError, nothing remains queued,
active or pending abort delivery, yet no outcome was ever recorded —
the promise of request 1 can never settle (executeRequest swallows
AbortError without calling reject). -/
theorem c2_counterexample :
    (schedRun 2 [.enqueue 1 1, .enqueue 2 1, .enqueue 3 1, .enqueue 4 1,
      .failHttp 1]).activeMap = [2, 3, 4] ∧
    inFlight (schedRun 2 [.enqueue 1 1, .enqueue 2 1, .enqueue 3 1, .enqueue 4 1,
      .failHttp 1]) = 3 ∧
    ¬ inFlight (schedRun 2 [.enqueue 1 1, .enqueue 2 1, .enqueue 3 1, .enqueue 4 1,
      .failHttp 1]) ≤ 2 ∧
    (schedRun 2 [.enqueue 1 1, .cancel 1, .abortFired 1]).outcomes = [] ∧
    (schedRun 2 [.enqueue 1 1, .cancel 1, .abortFired 1]).queue = [] ∧
    (schedRun 2 [.enqueue 1 1, .cancel 1, .abortFired 1]).activeMap = [] ∧
    (schedRun 2 [.enqueue 1 1, .cancel 1, .abortFired 1]).aborted = [] := by
  decide

def fiveTrace : List SchedEvent :=
  [.enqueue 1 1, .enqueue 2 1, .enqueue 3 1, .enqueue 4 1, .enqueue 5 1,
   .complete 1, .complete 2, .complete 3, .complete 4, .complete 5]

/-- C2 amended: along every event trace the currentRequests counter
never exceeds maxConcurrent, and the number of requests actually
executing never exceeds maxConcurrent plus the number of HTTP-error
settlements seen so far (each such settlement decrements the counter
twice, widening the gap between the counter and reality by one — so
the in-flight bound of the claim holds only on traces without
HTTP-error settlements). Every request that completes, or fails on
either failure path, while executing settles, and its outcome stays
recorded ever after; a request aborted during execution never settles
(shown by the counterexample). In the concrete scenario of the claim,
maxConcurrent 2 with five equal-priority requests all completing, the
bound 2 holds at every prefix and all five settle. -/
theorem c2_scheduler :
    (∀ (max : Nat) (evs : List SchedEvent), (schedRun max evs).current ≤ (max : Int)) ∧
    (∀ (max : Nat) (evs : List SchedEvent),
      inFlight (schedRun max evs) ≤ (max : Int) + (evs.countP isFailHttp : Int)) ∧
    (∀ (max : Nat) (evs post : List SchedEvent) (id : Nat),
      (schedRun max evs).activeMap.contains id = true →
      ((id, Outcome.success) ∈
          (schedRun max (evs ++ SchedEvent.complete id :: post)).outcomes ∧
        (id, Outcome.failure) ∈
          (schedRun max (evs ++ SchedEvent.failHttp id :: post)).outcomes ∧
        (id, Outcome.failure) ∈
          (schedRun max (evs ++ SchedEvent.failFetch id :: post)).outcomes)) ∧
    ((List.range 11).all
      (fun n => (schedRun 2 (fiveTrace.take n)).current ≤ 2) = true) ∧
    ((List.range 11).all
      (fun n => inFlight (schedRun 2 (fiveTrace.take n)) ≤ 2) = true) ∧
    ([1, 2, 3, 4, 5].all
      (fun i => (schedRun 2 fiveTrace).outcomes.contains (i, Outcome.success)) = true) := by
  refine ⟨?_, ?_, ?_, by decide, by decide, by decide⟩
  · intro max evs
    exact schedRunFrom_current_le max evs SchedState.init (by simp [SchedState.init])
  · intro max evs
    have h1 := schedRunFrom_balance max evs SchedState.init
    have h2 := schedRunFrom_current_le max evs SchedState.init (by simp [SchedState.init])
    have h3 : inFlight SchedState.init - SchedState.init.current = 0 := by
      simp [inFlight, SchedState.init]
    show inFlight (schedRunFrom max SchedState.init evs) ≤ _
    omega
  · intro max evs post id h
    refine ⟨?_, ?_, ?_⟩
    · rw [schedRun_append_cons]
      exact schedRunFrom_outcomes_mono max post _ _
        (schedStep_complete_settles max _ id h)
    · rw [schedRun_append_cons]
      exact schedRunFrom_outcomes_mono max post _ _
        (schedStep_failHttp_settles max _ id h)
    · rw [schedRun_append_cons]
      exact schedRunFrom_outcomes_mono max post _ _
        (schedStep_failFetch_settles max _ id h)

theorem c2_scheduler_witness :
    (schedRun 1 [SchedEvent.enqueue 7 1]).activeMap.contains 7 = true ∧
    (7, Outcome.success) ∈
      (schedRun 1 ([SchedEvent.enqueue 7 1] ++ SchedEvent.complete 7 :: [])).outcomes ∧
    (7, Outcome.failure) ∈
      (schedRun 1 ([SchedEvent.enqueue 7 1] ++ SchedEvent.failHttp 7 :: [])).outcomes :=
  ⟨by decide, (c2_scheduler.2.2.1 1 [SchedEvent.enqueue 7 1] [] 7 (by decide)).1,
   (c2_scheduler.2.2.1 1 [SchedEvent.enqueue 7 1] [] 7 (by decide)).2.1⟩


/-! ## C3: priority insertion and dispatch order -/

/-- C3: the claim states that enqueuing priorities [1, 3, 2] under
maxConcurrent 1 dispatches in priority order 3, 2, 1 (ids 2, 3, 1).
False: the first request is dispatched the moment it is enqueued, while
capacity is free, so the actual dispatch order is ids 1, 2, 3, that is
priorities 1, 3, 2. -/
theorem c3_counterexample :
    (schedRun 1 [.enqueue 1 1, .enqueue 2 3, .enqueue 3 2,
      .complete 1, .complete 2, .complete 3]).dispatched = [1, 2, 3] ∧
    (schedRun 1 [.enqueue 1 1, .enqueue 2 3, .enqueue 3 2,
      .complete 1, .complete 2, .complete 3]).dispatched ≠ [2, 3, 1] := by
  decide

/-- C3 amended: enqueue splices the new request before the first queue
entry of strictly lower priority, at the tail when none exists (the
take/drop characterization), and queued requests therefore dispatch in
descending priority with FIFO ties; but a request enqueued while
capacity is free is dispatched at once, so the claim scenario [1, 3, 2]
with maxConcurrent 1 dispatches as priorities 1, 3, 2, while
equal-priority requests dispatch in arrival order. -/
theorem c3_priority_insert :
    (∀ (q : List QReq) (r : QReq),
      insertByPriority q r =
        q.takeWhile (fun x => r.priority ≤ x.priority) ++
          r :: q.dropWhile (fun x => r.priority ≤ x.priority)) ∧
    (schedRun 1 [.enqueue 1 1, .enqueue 2 3, .enqueue 3 2,
      .complete 1, .complete 2, .complete 3]).dispatched = [1, 2, 3] ∧
    (schedRun 1 [.enqueue 1 5, .enqueue 2 5, .enqueue 3 5,
      .complete 1, .complete 2, .complete 3]).dispatched = [1, 2, 3] := by
  refine ⟨?_, by decide, by decide⟩
  intro q r
  induction q with
  | nil => rfl
  | cons x xs ih =>
    by_cases h : x.priority < r.priority
    · have hna : ¬ (r.priority ≤ x.priority) := by omega
      simp only [insertByPriority, if_pos h, List.takeWhile_cons, List.dropWhile_cons,
        decide_eq_false hna, Bool.false_eq_true, if_false, List.nil_append]
    · have ha : r.priority ≤ x.priority := by omega
      simp only [insertByPriority, if_neg h, List.takeWhile_cons, List.dropWhile_cons,
        decide_eq_true ha, if_true, List.cons_append, ih]

/-! ## C4: cancellation -/

/-- C4: the claim states that cancelling a queued request removes it
from the queue so it never executes, and that a cancelled request
rejects distinguishably. False: with maxConcurrent 1, request 2 sits in
the queue, cancel 2 leaves the queue untouched (cancelRequest only
consults activeRequests), request 2 is dispatched later anyway; and a
cancelled executing request records no outcome at all (the promise
never rejects). -/
theorem c4_counterexample :
    ((schedRun 1 [.enqueue 1 1, .enqueue 2 1, .cancel 2]).queue.map QReq.id = [2]) ∧
    (2 ∈ (schedRun 1 [.enqueue 1 1, .enqueue 2 1, .cancel 2, .complete 1]).dispatched) ∧
    ((schedRun 1 [.enqueue 1 1, .cancel 1, .abortFired 1]).outcomes = []) := by
  decide

/-- C4 amended: cancelRequest aborts exactly the currently executing
request with that id (returning true iff one exists) and never touches
the queue, so a still-queued request is not removed and will execute;
neither cancellation nor the later AbortError delivery ever settles the
promise (no outcome is recorded on either step). -/
theorem c4_cancel (max : Nat) (s : SchedState) (id : Nat) :
    (schedStep max s (.cancel id)).queue = s.queue ∧
    (cancelResult s id = true ↔ s.activeMap.contains id = true) ∧
    (s.activeMap.contains id = false → schedStep max s (.cancel id) = s) ∧
    (schedStep max s (.cancel id)).outcomes = s.outcomes ∧
    (schedStep max s (.abortFired id)).outcomes = s.outcomes := by
  refine ⟨?_, Iff.rfl, ?_, ?_, ?_⟩
  · simp only [schedStep]
    split
    · rfl
    · rfl
  · intro h
    simp only [schedStep, h]
    rfl
  · simp only [schedStep]
    split
    · rfl
    · rfl
  · simp only [schedStep]
    split
    · rw [processQueue_outcomes]
    · rfl

theorem c4_cancel_witness :
    ((schedRun 1 [SchedEvent.enqueue 1 1, SchedEvent.enqueue 2 1]).activeMap.contains 2
        = false) ∧
    schedStep 1 (schedRun 1 [SchedEvent.enqueue 1 1, SchedEvent.enqueue 2 1])
        (.cancel 2) =
      schedRun 1 [SchedEvent.enqueue 1 1, SchedEvent.enqueue 2 1] :=
  ⟨by decide,
   (c4_cancel 1 (schedRun 1 [SchedEvent.enqueue 1 1, SchedEvent.enqueue 2 1]) 2).2.2.1
     (by decide)⟩

end MisraFix
